import Mathlib

/-!
Verification of the streaming bridge and call-dispatch core of
`nestjs-connectrpc`.

The definitions below are a shallow embedding of:
 - `src/packages/nestjs-buf-connect/src/utils/async.ts`
   (`observableToAsyncGenerator`, `transformToObservable`, `toAsyncGenerator`),
 - the router's `createServiceHandlers` adapter bodies and
   `addServicesToRouter`.

Scheduling in the source is single-threaded and cooperative, so a run of the
push-to-pull bridge is fully determined by the producer's event trace together
with the delivery schedule: which batch of events arrives while the pull loop
is suspended.  We model the schedule as a list of chunks; the first chunk holds
events the source delivers synchronously during `subscribe`, and each later
chunk holds the events of one suspension window of the loop's `await`.
-/

namespace NestConnect

/-- A JavaScript runtime value as far as the bridge's error path can tell them
apart: an `Error` instance (as tested by `instanceof Error`, carrying its
message), or any other value, represented by its `String(...)` rendering. -/
inductive JsVal where
  | errorVal (msg : String)
  | otherVal (str : String)
deriving DecidableEq

/-- The expression `error instanceof Error ? error : new Error(String(error))`
at async.ts line 70: an `Error` instance is re-thrown as-is, any other cause is
wrapped in a freshly constructed `Error` carrying its string form. -/
def thrownOf : JsVal → JsVal
  | .errorVal m => .errorVal m
  | .otherVal s => .errorVal s

/-- Producer events delivered to the subscriber callbacks of async.ts lines
43-56.  `next none` models an emission of the value `undefined`; `err none`
models `error(null)`, since `null` is exactly the sentinel the bridge's local
`error` variable starts from. -/
inductive Ev (V C : Type) where
  | next (v : Option V)
  | err (c : Option C)
  | complete
deriving DecidableEq

/-- The bridge's local state, async.ts lines 38-40: the emission `queue`, the
`error` variable (`none` models the initial JavaScript `null`), and the
`completed` flag. -/
structure BState (V C : Type) where
  queue : List (Option V)
  error : Option C
  completed : Bool
deriving DecidableEq

/-- The state right after `observableToAsyncGenerator` declares its locals. -/
def BState.start {V C : Type} : BState V C := ⟨[], none, false⟩

/-- The subscriber callbacks of async.ts lines 43-56: `next` pushes the value
onto the queue, `error` stores the cause in the `error` variable, `complete`
sets the flag.  The `resolve?.()` wake-ups are represented by the chunked
delivery schedule consumed by `loopRun`. -/
def deliver {V C : Type} (s : BState V C) : Ev V C → BState V C
  | .next v => { s with queue := s.queue ++ [v] }
  | .err c => { s with error := c }
  | .complete => { s with completed := true }

/-- Delivery of one batch of producer events, in order. -/
def deliverAll {V C : Type} (s : BState V C) (evs : List (Ev V C)) : BState V C :=
  evs.foldl deliver s

/-- The inner `while (queue.length > 0)` loop of async.ts lines 61-66: dequeue
every item in FIFO order and yield it, except that an item that `=== undefined`
is dequeued and skipped. -/
def drainQ {V : Type} (q : List (Option V)) : List V :=
  q.filterMap id

/-- How a run of the pull loop ends: `done` models the `break` taken once the
source completed and the queue is drained; `threw c` models the `throw` of the
recorded cause `c` (before the `instanceof` mapping of line 70); `stuck` models
a loop suspended at the `await` of lines 79-81 with no further producer event
ever arriving. -/
inductive Outcome (C : Type) where
  | done
  | threw (c : C)
  | stuck
deriving DecidableEq

/-- Applies the raise-site transformation to the outcome of the loop. -/
def Outcome.mapThrown {C : Type} (f : C → C) : Outcome C → Outcome C
  | .done => .done
  | .threw c => .threw (f c)
  | .stuck => .stuck

/-- The `while (true)` pull loop of async.ts lines 59-83.  Each iteration
drains and yields the queued values, then checks the `error` variable (a throw
if it is not `null`), then the `completed` flag (a `break`), and otherwise
suspends at the `await`; the next chunk of the schedule is the batch of
producer events delivered during that suspension window.  An exhausted
schedule means no further event ever arrives, leaving the loop suspended
(`Outcome.stuck`).  The returned list is the sequence of yields, i.e. the
values the consumer's successive pulls receive, in order. -/
def loopRun {V C : Type} : BState V C → List (List (Ev V C)) → List V × Outcome C
  | s, [] =>
    match s.error with
    | some c => (drainQ s.queue, .threw c)
    | none => if s.completed then (drainQ s.queue, .done) else (drainQ s.queue, .stuck)
  | s, ch :: rest =>
    match s.error with
    | some c => (drainQ s.queue, .threw c)
    | none =>
      if s.completed then (drainQ s.queue, .done)
      else
        let r := loopRun (deliverAll { s with queue := [] } ch) rest
        (drainQ s.queue ++ r.1, r.2)

/-- `observableToAsyncGenerator` (async.ts lines 35-87): subscribe, run the
pull loop over the delivery schedule, and raise any recorded cause through the
`instanceof Error` mapping of line 70.  The `finally` cleanup is modelled by
`loopRunB` below. -/
def observableToAsyncGenerator {V : Type} (chunks : List (List (Ev V JsVal))) :
    List V × Outcome JsVal :=
  ((loopRun BState.start chunks).1, Outcome.mapThrown thrownOf (loopRun BState.start chunks).2)

/-- A terminal producer event, if any: completion, or an error event whose
cause is `c` (`none` being the JavaScript `null`). -/
inductive Term (C : Type) where
  | complete
  | errEv (c : Option C)
deriving DecidableEq

/-- The event list a terminal contributes to the trace. -/
def termEvs {V C : Type} : Option (Term C) → List (Ev V C)
  | none => []
  | some .complete => [Ev.complete]
  | some (.errEv c) => [Ev.err c]

/-- The loop outcome determined by a terminal: no terminal leaves the loop
suspended, completion exits it, an error with an actual cause throws it, and
`error(null)` is indistinguishable from no error, leaving the loop suspended. -/
def outcomeOf {C : Type} : Option (Term C) → Outcome C
  | none => .stuck
  | some .complete => .done
  | some (.errEv none) => .stuck
  | some (.errEv (some c)) => .threw c

/-- How a run ends when a consumer is taken into account: the three loop
outcomes, plus `abandoned` for the consumer invoking `generator.return()` while
the generator is suspended at a `yield` (e.g. `break` inside `for await`). -/
inductive GOutcome (C : Type) where
  | done
  | threw (c : C)
  | stuck
  | abandoned
deriving DecidableEq

/-- Yields one drained batch to a consumer who will still accept `b` values
(`none` = the consumer pulls until the generator finishes).  Returns the values
actually delivered, the remaining budget, and whether the consumer abandoned
the generator at one of these yields: after the consumer's last pull the
generator rests suspended at the `yield` of async.ts line 64, and the
consumer's `return()` resumes it on the abandonment path. -/
def takeB {V : Type} (vs : List V) : Option Nat → List V × Option Nat × Bool
  | none => (vs, none, false)
  | some b => if vs.length < b then (vs, some (b - vs.length), false) else (vs.take b, some 0, true)

/-- The pull loop of async.ts lines 58-87 as observed by a consumer with pull
budget `b`, instrumented with the number of times the `finally` block of lines
84-86 runs `subscription.unsubscribe()`.  JavaScript generator semantics run
the single `finally` exactly when the body exits: on the `break` after
completion, on the `throw` of a recorded error, and on a `return()` delivered
at a `yield`; a generator suspended forever at the inner `await` never exits,
so its `finally` never runs. -/
def loopRunB {V C : Type} :
    BState V C → List (List (Ev V C)) → Option Nat → List V × GOutcome C × Nat
  | s, [], b =>
    let t := takeB (drainQ s.queue) b
    if t.2.2 then (t.1, .abandoned, 1)
    else
      match s.error with
      | some c => (t.1, .threw c, 1)
      | none => if s.completed then (t.1, .done, 1) else (t.1, .stuck, 0)
  | s, ch :: rest, b =>
    let t := takeB (drainQ s.queue) b
    if t.2.2 then (t.1, .abandoned, 1)
    else
      match s.error with
      | some c => (t.1, .threw c, 1)
      | none =>
        if s.completed then (t.1, .done, 1)
        else
          let r := loopRunB (deliverAll { s with queue := [] } ch) rest t.2.1
          (t.1 ++ r.1, r.2)

/-- `observableToAsyncGenerator` driven by a consumer that pulls `b` values and
then abandons the generator (`b = none`: the consumer keeps pulling until the
generator finishes).  With `b = some 0` the consumer never pulls at all: the
generator body — including the `subscribe` call — never starts, so no
subscription exists and no cleanup is needed. -/
def bridgeConsume {V C : Type} (chunks : List (List (Ev V C))) (b : Option Nat) :
    List V × GOutcome C × Nat :=
  match b with
  | some 0 => ([], .abandoned, 0)
  | _ => loopRunB BState.start chunks b

/-- The awaited handler result as seen by `transformToObservable` (async.ts
lines 5-29) on the unary and client-streaming adapter paths: either an rxjs
Observable, whose behaviour is its event trace, or any other value, which is
wrapped as a one-emission observable (async.ts lines 25-28).  The `Promise`
branch of `transformToObservable` is unreachable on these paths because the
adapter has already awaited the handler result. -/
inductive UShape (V C : Type) where
  | plain (v : V)
  | obs (tr : List (Ev V C))
deriving DecidableEq

/-- `transformToObservable` (async.ts lines 5-29) in trace form: an Observable
passes through unchanged; any other value becomes the stream that emits it
once and completes. -/
def transformToObservable {V C : Type} : UShape V C → List (Ev V C)
  | .plain v => [.next (some v), .complete]
  | .obs tr => tr

/-- The settlement of `lastValueFrom(stream)`: resolve with the last emission
(`undefined` emissions included, hence `Option V`), reject with rxjs's
`EmptyError` when the stream completed without emitting, reject with the
stream's error cause, or never settle when the stream never terminates. -/
inductive UnaryOut (V C : Type) where
  | value (v : Option V)
  | empty
  | failed (c : Option C)
  | hang
deriving DecidableEq

/-- rxjs `lastValueFrom`, modelled from its documented behaviour: remember the
latest emission; on completion resolve with it, or reject with `EmptyError` if
there was none; on an error event reject with its cause.  Events after a
terminal are ignored, as the rxjs subscriber is closed by then. -/
def lastValueFrom {V C : Type} : Option (Option V) → List (Ev V C) → UnaryOut V C
  | _, [] => .hang
  | _, .next v :: rest => lastValueFrom (some v) rest
  | _, .err c :: _ => .failed c
  | acc, .complete :: _ =>
    match acc with
    | some v => .value v
    | none => .empty

/-- A handler invocation result before the adapter's `await` (part_000 lines
69-70, 83-84, 96-97, 110-111): a value of shape `S` computed immediately, or a
deferred value that resolves to a shape or rejects with `e`. -/
inductive HRes (S C : Type) where
  | immediate (s : S)
  | deferredOk (s : S)
  | deferredErr (e : C)
deriving DecidableEq

/-- The unary adapter (part_000, `NO_STREAMING` case, lines 64-74): await the
handler result, then return `lastValueFrom(transformToObservable(r))`; a
rejected handler promise rejects the call with its cause. -/
def unaryHandler {V C : Type} : HRes (UShape V C) C → UnaryOut V C
  | .immediate u => lastValueFrom none (transformToObservable u)
  | .deferredOk u => lastValueFrom none (transformToObservable u)
  | .deferredErr e => .failed (some e)

/-- The client-streaming adapter (part_000, `PT_STREAMING` case, lines
90-101): its response side is exactly the unary composition; the incoming
request stream is handed to the user handler unchanged and plays no role in
the response path modelled here. -/
def clientStreamingHandler {V C : Type} : HRes (UShape V C) C → UnaryOut V C
  | .immediate u => lastValueFrom none (transformToObservable u)
  | .deferredOk u => lastValueFrom none (transformToObservable u)
  | .deferredErr e => .failed (some e)

/-- The awaited handler result as seen by `toAsyncGenerator` (async.ts lines
96-108) on the server- and bidi-streaming adapter paths: an rxjs Observable
together with its delivery schedule, an object carrying `Symbol.asyncIterator`
(an async generator that yields `vs` and then returns, or throws `e`), or any
other value. -/
inductive SShape (V : Type) where
  | plain (v : V)
  | obs (chunks : List (List (Ev V JsVal)))
  | agen (vs : List V) (e : Option JsVal)

/-- The `Error` thrown by `toAsyncGenerator` for an input that is neither an
Observable nor an async iterable (async.ts lines 104-106; at runtime the
message also names the `typeof` of the offending input). -/
def unsupportedInput : JsVal :=
  .errorVal "Unsupported input type. Expected Observable or AsyncGenerator"

/-- The terminal behaviour of forwarding an async generator with `yield*`:
thrown values pass through unchanged. -/
def agenOutcome : Option JsVal → Outcome JsVal
  | none => .done
  | some c => .threw c

/-- `toAsyncGenerator` (async.ts lines 96-108) in trace form: an Observable is
delegated to `observableToAsyncGenerator`, an async iterable is forwarded with
`yield*`, and anything else makes the generator throw the unsupported-input
`Error`. -/
def toAsyncGenerator {V : Type} : SShape V → List V × Outcome JsVal
  | .plain _ => ([], .threw unsupportedInput)
  | .obs chunks => observableToAsyncGenerator chunks
  | .agen vs e => (vs, agenOutcome e)

/-- The server-streaming adapter (part_000, `RX_STREAMING` case, lines 76-88):
await the handler result, then `yield*` it through `toAsyncGenerator`; a
rejected handler promise makes the adapter generator throw its cause before
yielding anything. -/
def serverStreamingHandler {V : Type} : HRes (SShape V) JsVal → List V × Outcome JsVal
  | .immediate s => toAsyncGenerator s
  | .deferredOk s => toAsyncGenerator s
  | .deferredErr e => ([], .threw e)

/-- The bidi-streaming adapter (part_000, `DUPLEX_STREAMING` case, lines
103-115): its response side is identical to the server-streaming one; the
incoming request stream is handed to the user handler unchanged. -/
def bidiStreamingHandler {V : Type} : HRes (SShape V) JsVal → List V × Outcome JsVal
  | .immediate s => toAsyncGenerator s
  | .deferredOk s => toAsyncGenerator s
  | .deferredErr e => ([], .threw e)

/-- `addServicesToRouter` (part_000 lines 130-147): for each service name of
the handler table, look the service descriptor up in the store
(`metadataStore.get`); when found, attach the pair of descriptor and handler
sub-table to the router, and when not found skip the entry.  The function is
total: a missing descriptor raises nothing.  `store` models `metadataStore`
and the returned list models the attachments made by `router.service`. -/
def addServicesToRouter {D H : Type} (store : List (String × D))
    (serviceHandlers : List (String × H)) : List (D × H) :=
  serviceHandlers.filterMap fun p => (store.lookup p.1).map fun d => (d, p.2)

/-! ## Helper lemmas about the pull loop -/


theorem drainQ_append {V : Type} (a b : List (Option V)) :
    drainQ (a ++ b) = drainQ a ++ drainQ b := by
  simp [drainQ]

theorem drainQ_map_some {V : Type} (vs : List V) : drainQ (vs.map some) = vs := by
  induction vs with
  | nil => rfl
  | cons v rest ih => simp [drainQ, List.filterMap_cons, ih]

theorem deliverAll_nexts {V C : Type} (ovs : List (Option V)) :
    ∀ q : List (Option V),
      deliverAll (⟨q, none, false⟩ : BState V C) (ovs.map Ev.next) = ⟨q ++ ovs, none, false⟩ := by
  induction ovs with
  | nil => intro q; simp [deliverAll]
  | cons o os ih =>
    intro q
    simp only [List.map_cons, deliverAll, List.foldl_cons, deliver]
    simpa [deliverAll, List.append_assoc] using ih (q ++ [o])

theorem loopRun_errored {V C : Type} {s : BState V C} {c : C} (he : s.error = some c)
    (chunks : List (List (Ev V C))) : loopRun s chunks = (drainQ s.queue, .threw c) := by
  cases chunks <;> simp [loopRun, he]

theorem loopRun_completed {V C : Type} {s : BState V C} (he : s.error = none)
    (hc : s.completed = true) (chunks : List (List (Ev V C))) :
    loopRun s chunks = (drainQ s.queue, .done) := by
  cases chunks <;> simp [loopRun, he, hc]

theorem loopRun_flatten_nil {V C : Type} (chunks : List (List (Ev V C)))
    (hj : chunks.flatten = []) : ∀ q : List (Option V),
    loopRun (⟨q, none, false⟩ : BState V C) chunks = (drainQ q, .stuck) := by
  induction chunks with
  | nil => intro q; simp [loopRun]
  | cons ch rest ih =>
    intro q
    simp only [List.flatten_cons, List.append_eq_nil] at hj
    obtain ⟨rfl, hrest⟩ := hj
    have hr := ih hrest []
    simp [loopRun, deliverAll, hr, drainQ]

/-- The central characterization of the pull loop: for a well-formed producer
trace consisting of emissions `ovs` followed by an optional terminal `t`,
every way of chunking the trace into delivery windows yields exactly the
non-`undefined` values of the pending queue and then of `ovs`, in order, and
ends as the terminal dictates. -/
theorem loopRun_spec {V C : Type} (t : Option (Term C)) (chunks : List (List (Ev V C))) :
    ∀ (ovs : List (Option V)) (q : List (Option V)),
      chunks.flatten = ovs.map Ev.next ++ termEvs t →
      loopRun (⟨q, none, false⟩ : BState V C) chunks
        = (drainQ q ++ drainQ ovs, outcomeOf t) := by
  induction chunks with
  | nil =>
    intro ovs q hj
    simp only [List.flatten_nil] at hj
    have hj' := hj.symm
    rw [List.append_eq_nil] at hj'
    obtain ⟨hmap, hterm⟩ := hj'
    rw [List.map_eq_nil_iff] at hmap
    subst hmap
    cases t with
    | none => simp [loopRun, outcomeOf, drainQ]
    | some tm => cases tm <;> simp [termEvs] at hterm
  | cons ch rest ih =>
    intro ovs q hj
    simp only [List.flatten_cons] at hj
    rcases List.append_eq_append_iff.mp hj with ⟨a, hmap, hrest⟩ | ⟨c, hch, hterm⟩
    · -- the chunk is a prefix of the emissions
      rcases List.map_eq_append_iff.mp hmap with ⟨o1, o2, hovs, hch2, ha⟩
      subst hovs
      subst ha
      subst hch2
      have hr := ih o2 o1 hrest
      have hd := deliverAll_nexts (C := C) o1 []
      simp only [List.nil_append] at hd
      simp [loopRun, hd, hr, drainQ_append, List.append_assoc]
    · -- the chunk swallows all the emissions, and possibly the terminal
      cases t with
      | none =>
        simp only [termEvs, List.nil_eq, List.append_eq_nil] at hterm
        obtain ⟨rfl, hrest⟩ := hterm
        simp only [List.append_nil] at hch
        subst hch
        have hd := deliverAll_nexts (C := C) ovs []
        simp only [List.nil_append] at hd
        have hr := loopRun_flatten_nil rest hrest ovs
        simp [loopRun, hd, hr, outcomeOf]
      | some tm =>
        rcases c with _ | ⟨e, c'⟩
        · -- the chunk stops right before the terminal event
          simp only [List.nil_append] at hterm
          simp only [List.append_nil] at hch
          subst hch
          have hd := deliverAll_nexts (C := C) ovs []
          simp only [List.nil_append] at hd
          have hr := ih [] ovs (by simp [hterm.symm])
          simp only [List.map_nil, List.nil_append, drainQ, List.filterMap_nil,
            List.append_nil] at hr
          simp [loopRun, hd, hr, drainQ]
        · -- the chunk ends with the terminal event
          cases tm with
          | complete =>
            simp only [termEvs] at hterm
            rw [List.cons_append] at hterm
            injection hterm with h1 h2
            subst h1
            obtain ⟨rfl, hrfl⟩ := List.append_eq_nil.mp h2.symm
            subst hch
            have hd := deliverAll_nexts (C := C) ovs []
            simp only [List.nil_append] at hd
            have hstep : deliverAll (⟨[], none, false⟩ : BState V C)
                (ovs.map Ev.next ++ [Ev.complete])
                = ⟨ovs, none, true⟩ := by
              simp [deliverAll, List.foldl_append, hd]
              rw [show List.foldl deliver (⟨[], none, false⟩ : BState V C)
                (List.map Ev.next ovs) = deliverAll (⟨[], none, false⟩ : BState V C)
                (List.map Ev.next ovs) from rfl]
              simp [hd, deliver]
            have hr := loopRun_completed (s := (⟨ovs, none, true⟩ : BState V C))
              rfl rfl rest
            simp [loopRun, hstep, hr, outcomeOf]
          | errEv cc =>
            simp only [termEvs] at hterm
            rw [List.cons_append] at hterm
            injection hterm with h1 h2
            subst h1
            obtain ⟨rfl, hrfl⟩ := List.append_eq_nil.mp h2.symm
            subst hch
            have hd := deliverAll_nexts (C := C) ovs []
            simp only [List.nil_append] at hd
            have hstep : deliverAll (⟨[], none, false⟩ : BState V C)
                (ovs.map Ev.next ++ [Ev.err cc])
                = ⟨ovs, cc, false⟩ := by
              simp [deliverAll, List.foldl_append]
              rw [show List.foldl deliver (⟨[], none, false⟩ : BState V C)
                (List.map Ev.next ovs) = deliverAll (⟨[], none, false⟩ : BState V C)
                (List.map Ev.next ovs) from rfl]
              simp [hd, deliver]
            cases cc with
            | none =>
              have hr := loopRun_flatten_nil rest hrfl ovs
              simp [loopRun, hstep, hr, outcomeOf]
            | some cval =>
              have hr := loopRun_errored (s := (⟨ovs, some cval, false⟩ : BState V C))
                rfl rest
              simp [loopRun, hstep, hr, outcomeOf]

theorem map_next_some {V C : Type} (vs : List V) :
    (vs.map some).map (Ev.next (C := C)) = vs.map (fun v => Ev.next (some v)) := by
  induction vs with
  | nil => rfl
  | cons v rest ih => simp [ih]

/-- `observableToAsyncGenerator` on a well-formed trace, for any chunking. -/
theorem observableToAsyncGenerator_spec {V : Type} (ovs : List (Option V))
    (t : Option (Term JsVal)) (chunks : List (List (Ev V JsVal)))
    (hj : chunks.flatten = ovs.map Ev.next ++ termEvs t) :
    observableToAsyncGenerator chunks
      = (drainQ ovs, Outcome.mapThrown thrownOf (outcomeOf t)) := by
  have hnil : drainQ ([] : List (Option V)) = [] := rfl
  have h := loopRun_spec t chunks ovs [] hj
  rw [hnil, List.nil_append] at h
  simp [observableToAsyncGenerator, BState.start, h]

/-- Claim C1: for every push source that emits values `V1, ..., Vn` — whether
synchronously at subscribe time or spread over any suspension windows — and
then completes, the bridge's pull sequence yields exactly those values in
emission order, one per pull step, with nothing dropped, duplicated or
reordered, and then signals exhaustion. -/
theorem C1_order_preservation {V : Type} (vs : List V)
    (chunks : List (List (Ev V JsVal)))
    (hj : chunks.flatten = vs.map (fun v => Ev.next (some v)) ++ [Ev.complete]) :
    observableToAsyncGenerator chunks = (vs, Outcome.done) := by
  have h := observableToAsyncGenerator_spec (vs.map some) (some Term.complete) chunks
    (by rw [map_next_some]; exact hj)
  simpa [drainQ_map_some, outcomeOf, Outcome.mapThrown] using h

theorem C1_witness :
    observableToAsyncGenerator (V := Nat)
        [[Ev.next (some 1)], [Ev.next (some 2), Ev.next (some 3)], [Ev.complete]]
      = ([1, 2, 3], Outcome.done) :=
  C1_order_preservation [1, 2, 3]
    [[Ev.next (some 1)], [Ev.next (some 2), Ev.next (some 3)], [Ev.complete]] (by rfl)

/-- Claim C2: for every push source that emits values and then signals an
error with an actual (non-null) cause, the pull sequence yields every value
emitted strictly before the error, in order, and only once that buffer is
drained does it raise the failure; the run ends there, so no further value is
delivered.  (The raised value is the cause as mapped by the raise site, cf.
C3; an error whose cause is `null` is the separate behaviour settled by
C10.) -/
theorem C2_drain_before_error {V : Type} (vs : List V) (c : JsVal)
    (chunks : List (List (Ev V JsVal)))
    (hj : chunks.flatten = vs.map (fun v => Ev.next (some v)) ++ [Ev.err (some c)]) :
    observableToAsyncGenerator chunks = (vs, Outcome.threw (thrownOf c)) := by
  have h := observableToAsyncGenerator_spec (vs.map some) (some (Term.errEv (some c))) chunks
    (by rw [map_next_some]; exact hj)
  simpa [drainQ_map_some, outcomeOf, Outcome.mapThrown] using h

theorem C2_witness :
    observableToAsyncGenerator (V := Nat)
        [[Ev.next (some 1)], [Ev.err (some (JsVal.errorVal "boom"))]]
      = ([1], Outcome.threw (JsVal.errorVal "boom")) :=
  C2_drain_before_error [1] (JsVal.errorVal "boom")
    [[Ev.next (some 1)], [Ev.err (some (JsVal.errorVal "boom"))]] (by rfl)

/-- Claim C3, counterexample: the producer raises the non-`Error` cause
`"boom"` (a plain string); after draining the buffered `1` the consumer does
not receive that same value back — it receives a freshly constructed `Error`
whose message is `"boom"`.  Propagation is therefore not verbatim for every
cause. -/
theorem C3_counterexample :
    observableToAsyncGenerator (V := Nat)
        [[Ev.next (some 1), Ev.err (some (JsVal.otherVal "boom"))]]
      = ([1], Outcome.threw (JsVal.errorVal "boom"))
    ∧ Outcome.threw (C := JsVal) (JsVal.errorVal "boom")
        ≠ Outcome.threw (JsVal.otherVal "boom") :=
  ⟨rfl, by decide⟩

/-- Claim C3 as amended: after draining buffered values the bridge raises the
recorded cause through the `instanceof Error` mapping — a cause that is an
`Error` instance is propagated verbatim, while any other cause is wrapped in a
new `Error` carrying its string form. -/
theorem C3_error_propagation_amended {V : Type} (vs : List V) (c : JsVal)
    (chunks : List (List (Ev V JsVal)))
    (hj : chunks.flatten = vs.map (fun v => Ev.next (some v)) ++ [Ev.err (some c)]) :
    observableToAsyncGenerator chunks = (vs, Outcome.threw (thrownOf c))
    ∧ (∀ m, thrownOf (JsVal.errorVal m) = JsVal.errorVal m)
    ∧ ∀ s, thrownOf (JsVal.otherVal s) = JsVal.errorVal s := by
  refine ⟨?_, fun m => rfl, fun s => rfl⟩
  have h := observableToAsyncGenerator_spec (vs.map some) (some (Term.errEv (some c))) chunks
    (by rw [map_next_some]; exact hj)
  simpa [drainQ_map_some, outcomeOf, Outcome.mapThrown] using h

theorem C3_amended_witness :
    observableToAsyncGenerator (V := Nat) [[Ev.err (some (JsVal.errorVal "fail"))]]
      = ([], Outcome.threw (JsVal.errorVal "fail")) :=
  (C3_error_propagation_amended [] (JsVal.errorVal "fail")
    [[Ev.err (some (JsVal.errorVal "fail"))]] (by rfl)).1

/-- Claim C9: an emission whose value is `undefined` is enqueued, dequeued and
then silently skipped by the pull loop, while the values emitted before and
after it are still yielded in their emission order (`List.filterMap id` keeps
exactly the non-`undefined` entries, in order). -/
theorem C9_undefined_skipped {V : Type} (ovs : List (Option V))
    (chunks : List (List (Ev V JsVal)))
    (hj : chunks.flatten = ovs.map Ev.next ++ [Ev.complete]) :
    observableToAsyncGenerator chunks = (ovs.filterMap id, Outcome.done) := by
  have h := observableToAsyncGenerator_spec ovs (some Term.complete) chunks hj
  simpa [outcomeOf, Outcome.mapThrown, drainQ] using h

theorem C9_witness :
    observableToAsyncGenerator (V := Nat)
        [[Ev.next (some 4), Ev.next none, Ev.next (some 5), Ev.complete]]
      = ([4, 5], Outcome.done) :=
  C9_undefined_skipped [some 4, none, some 5]
    [[Ev.next (some 4), Ev.next none, Ev.next (some 5), Ev.complete]] (by rfl)

/-- Claim C10: when the push source signals an error whose cause is `null`,
the bridge never surfaces a failure: the stored cause is indistinguishable
from "no error", so after draining any buffered values the pull loop treats
the state as still active and suspends awaiting further producer events —
it neither raises nor completes. -/
theorem C10_null_error_never_surfaces {V : Type} (ovs : List (Option V))
    (chunks : List (List (Ev V JsVal)))
    (hj : chunks.flatten = ovs.map Ev.next ++ [Ev.err none]) :
    observableToAsyncGenerator chunks = (ovs.filterMap id, Outcome.stuck) := by
  have h := observableToAsyncGenerator_spec ovs (some (Term.errEv none)) chunks hj
  simpa [outcomeOf, Outcome.mapThrown, drainQ] using h

theorem C10_witness :
    observableToAsyncGenerator (V := Nat)
        [[Ev.next (some 7), Ev.err none]]
      = ([7], Outcome.stuck) :=
  C10_null_error_never_surfaces [some 7]
    [[Ev.next (some 7), Ev.err none]] (by rfl)

theorem lastValueFrom_nexts {V C : Type} (vs : List V) (v : V) :
    ∀ (acc : Option (Option V)) (rest : List (Ev V C)),
      lastValueFrom acc (((vs ++ [v]).map fun x => Ev.next (some x)) ++ rest)
        = lastValueFrom (some (some v)) rest := by
  induction vs with
  | nil => intro acc rest; simp [lastValueFrom]
  | cons w ws ih =>
    intro acc rest
    simp only [List.cons_append, List.map_cons, lastValueFrom]
    exact ih (some (some w)) rest

/-- Claim C5: for the unary and client-streaming adapters, when the handler's
normalized stream emits the values `vs ++ [v]` and then completes, the adapter
resolves to `v`, the last value emitted before completion; every earlier
emission is silently discarded. -/
theorem C5_unary_last_value {V C : Type} (vs : List V) (v : V) :
    unaryHandler (V := V) (C := C) (.immediate (.obs
        (((vs ++ [v]).map fun x => Ev.next (some x)) ++ [Ev.complete])))
      = UnaryOut.value (some v)
    ∧ clientStreamingHandler (V := V) (C := C) (.immediate (.obs
        (((vs ++ [v]).map fun x => Ev.next (some x)) ++ [Ev.complete])))
      = UnaryOut.value (some v) := by
  constructor <;>
  · simp only [unaryHandler, clientStreamingHandler, transformToObservable]
    rw [lastValueFrom_nexts]
    rfl

/-- Claim C6: for the unary and client-streaming adapters, a normalized stream
that completes with zero emissions makes the call fail with rxjs's EmptyError
(the Empty-Result failure), rather than resolving to any value or hanging;
this holds whether the handler returned the stream immediately or through a
deferred completion. -/
theorem C6_empty_result {V C : Type} :
    unaryHandler (V := V) (C := C) (.immediate (.obs [Ev.complete])) = UnaryOut.empty
    ∧ clientStreamingHandler (V := V) (C := C) (.immediate (.obs [Ev.complete]))
      = UnaryOut.empty
    ∧ unaryHandler (V := V) (C := C) (.deferredOk (.obs [Ev.complete])) = UnaryOut.empty
    ∧ clientStreamingHandler (V := V) (C := C) (.deferredOk (.obs [Ev.complete]))
      = UnaryOut.empty :=
  ⟨rfl, rfl, rfl, rfl⟩

/-- Claim C4, counterexample: a server-streaming (or bidi-streaming) handler
whose result is the immediate plain value `5` — one of the three normalizer
input shapes — is not normalized to a one-value stream: `toAsyncGenerator`
delivers nothing and throws the unsupported-input `Error` instead of yielding
`5` and completing. -/
theorem C4_counterexample :
    serverStreamingHandler (V := Nat) (.immediate (.plain 5))
      = ([], Outcome.threw unsupportedInput)
    ∧ bidiStreamingHandler (V := Nat) (.immediate (.plain 5))
      = ([], Outcome.threw unsupportedInput)
    ∧ (([], Outcome.threw unsupportedInput) : List Nat × Outcome JsVal)
      ≠ ([5], Outcome.done) :=
  ⟨rfl, rfl, by decide⟩

/-- Claim C4 as amended: the server-streaming and bidi-streaming adapters
await the handler result and forward it through `toAsyncGenerator`, which
normalizes only the stream shapes — a push-style stream (Observable) has every
value it emits delivered in order until completion or error (errors mapped at
the raise site as in C3), and an async generator is forwarded verbatim; an
immediate plain value, or a deferred one, is not normalized: the call fails
with the unsupported-input `Error`, and a rejected deferred fails the call
with its rejection cause. -/
theorem C4_stream_normalization_amended {V : Type} :
    (∀ (vs : List V) (chunks : List (List (Ev V JsVal))),
        chunks.flatten = vs.map (fun x => Ev.next (some x)) ++ [Ev.complete] →
        serverStreamingHandler (.immediate (.obs chunks)) = (vs, Outcome.done)
        ∧ bidiStreamingHandler (.immediate (.obs chunks)) = (vs, Outcome.done))
    ∧ (∀ (vs : List V) (c : JsVal) (chunks : List (List (Ev V JsVal))),
        chunks.flatten = vs.map (fun x => Ev.next (some x)) ++ [Ev.err (some c)] →
        serverStreamingHandler (.immediate (.obs chunks)) = (vs, .threw (thrownOf c))
        ∧ bidiStreamingHandler (.immediate (.obs chunks)) = (vs, .threw (thrownOf c)))
    ∧ (∀ (vs : List V) (e : Option JsVal),
        serverStreamingHandler (.immediate (.agen vs e)) = (vs, agenOutcome e)
        ∧ bidiStreamingHandler (.immediate (.agen vs e)) = (vs, agenOutcome e))
    ∧ (∀ v : V,
        serverStreamingHandler (.immediate (.plain v)) = ([], .threw unsupportedInput)
        ∧ bidiStreamingHandler (.immediate (.plain v)) = ([], .threw unsupportedInput))
    ∧ (∀ sh : SShape V,
        serverStreamingHandler (.deferredOk sh) = serverStreamingHandler (.immediate sh)
        ∧ bidiStreamingHandler (.deferredOk sh) = bidiStreamingHandler (.immediate sh))
    ∧ ∀ e : JsVal,
        serverStreamingHandler (V := V) (.deferredErr e) = ([], .threw e)
        ∧ bidiStreamingHandler (V := V) (.deferredErr e) = ([], .threw e) := by
  refine ⟨?_, ?_, fun vs e => ⟨rfl, rfl⟩, fun v => ⟨rfl, rfl⟩,
    fun sh => ⟨rfl, rfl⟩, fun e => ⟨rfl, rfl⟩⟩
  · intro vs chunks hj
    have h := observableToAsyncGenerator_spec (vs.map some) (some Term.complete) chunks
      (by rw [map_next_some]; exact hj)
    constructor <;>
      simpa [serverStreamingHandler, bidiStreamingHandler, toAsyncGenerator,
        drainQ_map_some, outcomeOf, Outcome.mapThrown] using h
  · intro vs c chunks hj
    have h := observableToAsyncGenerator_spec (vs.map some) (some (Term.errEv (some c)))
      chunks (by rw [map_next_some]; exact hj)
    constructor <;>
      simpa [serverStreamingHandler, bidiStreamingHandler, toAsyncGenerator,
        drainQ_map_some, outcomeOf, Outcome.mapThrown] using h

theorem C4_amended_witness :
    serverStreamingHandler (V := Nat)
        (.immediate (.obs [[Ev.next (some 1), Ev.next (some 2), Ev.complete]]))
      = ([1, 2], Outcome.done) :=
  ((C4_stream_normalization_amended (V := Nat)).1 [1, 2]
    [[Ev.next (some 1), Ev.next (some 2), Ev.complete]] (by rfl)).1

theorem loopRunB_unsub {V C : Type} (chunks : List (List (Ev V C))) :
    ∀ (s : BState V C) (b : Option Nat),
      ((loopRunB s chunks b).2.1 = GOutcome.stuck → (loopRunB s chunks b).2.2 = 0)
      ∧ ((loopRunB s chunks b).2.1 ≠ GOutcome.stuck → (loopRunB s chunks b).2.2 = 1) := by
  induction chunks with
  | nil =>
    intro s b
    simp only [loopRunB]
    cases htb : (takeB (drainQ s.queue) b).2.2 with
    | true => simp [htb]
    | false =>
      cases herr : s.error with
      | some c => simp [htb, herr]
      | none =>
        cases hcomp : s.completed with
        | true => simp [htb, herr, hcomp]
        | false => simp [htb, herr, hcomp]
  | cons ch rest ih =>
    intro s b
    simp only [loopRunB]
    cases htb : (takeB (drainQ s.queue) b).2.2 with
    | true => simp [htb]
    | false =>
      cases herr : s.error with
      | some c => simp [htb, herr]
      | none =>
        cases hcomp : s.completed with
        | true => simp [htb, herr, hcomp]
        | false =>
          have h := ih (deliverAll { s with queue := [] } ch)
            (takeB (drainQ s.queue) b).2.1
          simpa [htb, herr, hcomp] using h

/-- Claim C7: whenever a run of the bridge's pull sequence exits — by
exhaustion after completion, by raising an error, or because the consumer,
having pulled at least once, abandons the generator at a `yield` — the
`finally` block runs `subscription.unsubscribe()` exactly once: never zero
times and never more than once.  (A run whose outcome is `stuck` never exits:
the generator stays suspended at its `await`, which is why the exit
hypothesis excludes it.) -/
theorem C7_unsubscribe_once {V C : Type} (chunks : List (List (Ev V C))) (b : Option Nat)
    (hb : b = none ∨ ∃ k, b = some (k + 1))
    (hexit : (bridgeConsume chunks b).2.1 ≠ GOutcome.stuck) :
    (bridgeConsume chunks b).2.2 = 1 := by
  have hform : bridgeConsume chunks b = loopRunB BState.start chunks b := by
    rcases hb with rfl | ⟨k, rfl⟩ <;> rfl
  rw [hform] at hexit ⊢
  exact (loopRunB_unsub chunks BState.start b).2 hexit

theorem C7_witness :
    (bridgeConsume (V := Nat) (C := Nat)
        [[Ev.next (some 1), Ev.next (some 2), Ev.complete]] (some 1)).2.2 = 1 :=
  C7_unsubscribe_once [[Ev.next (some 1), Ev.next (some 2), Ev.complete]] (some 1)
    (Or.inr ⟨0, rfl⟩) (by decide)

/-- Claim C8: the binder skips, without error, every handler-table entry whose
service name has no descriptor in the store — the entry contributes no routing
attachment (and `addServicesToRouter` is total, so nothing is raised) — while
every entry whose descriptor is found is attached to the router under exactly
that descriptor. -/
theorem C8_unregistered_service_tolerance {D H : Type} (store : List (String × D))
    (sh : List (String × H)) (n : String) (hdl : H) :
    (store.lookup n = none →
      addServicesToRouter store ((n, hdl) :: sh) = addServicesToRouter store sh)
    ∧ ∀ d, store.lookup n = some d → (n, hdl) ∈ sh →
      (d, hdl) ∈ addServicesToRouter store sh := by
  constructor
  · intro hnone
    simp [addServicesToRouter, List.filterMap_cons, hnone]
  · intro d hd hmem
    simp only [addServicesToRouter, List.mem_filterMap]
    exact ⟨(n, hdl), hmem, by simp [hd]⟩

theorem C8_witness :
    (addServicesToRouter [("A", "descA")] [("B", (2 : Nat))]
      = addServicesToRouter [("A", "descA")] ([] : List (String × Nat)))
    ∧ ("descA", (1 : Nat)) ∈ addServicesToRouter [("A", "descA")] [("A", 1)] := by
  constructor
  · exact (C8_unregistered_service_tolerance [("A", "descA")] [] "B" 2).1 (by decide)
  · exact (C8_unregistered_service_tolerance [("A", "descA")] [("A", 1)] "A" 1).2
      "descA" (by decide) (by simp)

end NestConnect
